import Mathlib

/-!
Formal model of the HanimeDownloader episode download engine, embedded from
`src/downloader/episode_downloader.py`, `helpers/downloader/crawler_utils.py`,
`helpers/general_utils.py` and `main.py`: the stream selector, page-URL
validation, retry backoff, segment decryption with the padding recovery path,
the indexed result table filled by the worker pool, the sequencer that writes
segments in index order, and the batch URL loop.

Bytes are modelled as `List Nat`; network fetch outcomes and the AES block
decryption function are parameters of the definitions that use them.
-/

namespace Hanime

/-- A `(event, message)` pair sent to the live manager's log sink
(`live_manager.update_log`). -/
structure LogEvent where
  event : String
  message : String
  deriving DecidableEq, Repr

/-- Diagnostic event emitted by the write loop when the result for
`segment_id` is `None` (the "Missing video segment" log entry in
`_download_and_decrypt_segments`). -/
def skip_event (segment_id : Nat) : LogEvent :=
  ⟨"Missing video segment", s!"Segment {segment_id} is missing, skipping."⟩

/-- The write loop of `_download_and_decrypt_segments`: iterate the results in
index order (`i` is the current index), appending each present payload to the
file and logging a skip event for each absent one. -/
def write_segments_from (i : Nat) (file : List Nat) (events : List LogEvent) :
    List (Option (List Nat)) → List Nat × List LogEvent
  | [] => (file, events)
  | none :: rest => write_segments_from (i + 1) file (events ++ [skip_event i]) rest
  | some d :: rest => write_segments_from (i + 1) (file ++ d) events rest

/-- The write phase of `_download_and_decrypt_segments`: the destination is
opened in append mode (`"ab"`), so the bytes written by the loop land after
`initial`, the file's existing content. Returns the final file content and the
emitted log events. -/
def write_segments (initial : List Nat) (results : List (Option (List Nat))) :
    List Nat × List LogEvent :=
  write_segments_from 0 initial [] results

theorem write_segments_from_spec (results : List (Option (List Nat))) :
    ∀ (i : Nat) (file : List Nat) (events : List LogEvent),
      write_segments_from i file events results
        = (file ++ (results.filterMap id).flatten,
           events ++ ((results.enumFrom i).filter (fun p => p.2.isNone)).map
             (fun p => skip_event p.1)) := by
  induction results with
  | nil =>
    intro i file events
    simp [write_segments_from]
  | cons r rest ih =>
    intro i file events
    cases r with
    | none =>
      simp [write_segments_from, ih]
    | some d =>
      simp [write_segments_from, ih]

/-- The result table of `_download_and_decrypt_segments`: `results` starts as
`[None] * total_segments`, and the `as_completed` loop stores each finished
task's outcome at that task's segment index (`results[segment_id] =
future.result()`). `n` is the number of manifest segment URIs, `f i` the
terminal outcome of the task for segment `i` (`some` plaintext bytes, or
`none` after exhausted retries), and `order` the sequence of segment indices
in task-completion order. The write phase receives the table only after this
fold has consumed the whole completion sequence, i.e. after every task has
reached a terminal state. -/
def fill_results (n : Nat) (f : Nat → Option (List Nat)) (order : List Nat) :
    List (Option (List Nat)) :=
  order.foldl (fun results i => results.set i (f i)) (List.replicate n none)

theorem foldl_set_length (f : Nat → Option (List Nat)) :
    ∀ (order : List Nat) (init : List (Option (List Nat))),
      (order.foldl (fun results i => results.set i (f i)) init).length = init.length := by
  intro order
  induction order with
  | nil => intro init; rfl
  | cons j rest ih =>
    intro init
    simp [List.foldl_cons, ih]

theorem foldl_set_getElem? (f : Nat → Option (List Nat)) :
    ∀ (order : List Nat) (init : List (Option (List Nat))) (i : Nat),
      i < init.length →
      (order.foldl (fun results j => results.set j (f j)) init)[i]?
        = if i ∈ order then some (f i) else init[i]? := by
  intro order
  induction order with
  | nil =>
    intro init i _
    simp
  | cons j rest ih =>
    intro init i hi
    by_cases hmem : i ∈ rest
    · simp [List.foldl_cons, ih (init.set j (f j)) i (by simpa using hi), hmem]
    · by_cases hij : i = j
      · subst hij
        simp [List.foldl_cons, ih (init.set i (f i)) i (by simpa using hi), hmem,
          List.getElem?_set_self, hi]
      · simp [List.foldl_cons, ih (init.set j (f j)) i (by simpa using hi), hmem,
          List.getElem?_set_ne (Ne.symm hij), hij]

/-- C1: the Sequencer/Writer appends to the destination file exactly the
concatenation of the present payloads in strictly increasing index order; an
absent result at index `i` causes exactly that segment's bytes to be omitted
while every later present segment is still written in order, and each skip
emits exactly one diagnostic log event (never an error). -/
theorem writer_concatenates_present_segments_in_order :
    ∀ (initial : List Nat) (results : List (Option (List Nat))),
      write_segments initial results
        = (initial ++ (results.filterMap id).flatten,
           (results.enum.filter (fun p => p.2.isNone)).map (fun p => skip_event p.1)) := by
  intro initial results
  simp [write_segments, write_segments_from_spec, List.enum]

/-- C2: for any number `n` of manifest segment URIs, any assignment `f` of a
terminal outcome to each task, and any task-completion order (a permutation of
the segment indices `0..n-1`), the result table handed to the write phase has
length `n` and slot `i` holds exactly the outcome of the unique task that
fetched index `i` — regardless of the order in which tasks complete. The
write phase consumes this table only after the fold over the whole completion
sequence, i.e. after every task has reached a terminal state. -/
theorem results_table_complete_before_write
    (n : Nat) (f : Nat → Option (List Nat)) (order : List Nat)
    (hperm : order.Perm (List.range n)) :
    (fill_results n f order).length = n
      ∧ ∀ i, i < n → (fill_results n f order)[i]? = some (f i) := by
  constructor
  · simp [fill_results, foldl_set_length]
  · intro i hi
    have hmem : i ∈ order := (hperm.mem_iff).mpr (List.mem_range.mpr hi)
    have h := foldl_set_getElem? f order (List.replicate n none) i (by simpa using hi)
    simpa [fill_results, hmem] using h

theorem results_table_complete_before_write_witness :
    (fill_results 2 (fun i => some [i]) [1, 0]).length = 2
      ∧ ∀ i, i < 2 → (fill_results 2 (fun i => some [i]) [1, 0])[i]? = some (some [i]) :=
  results_table_complete_before_write 2 (fun i => some [i]) [1, 0] (by decide)

/-- A stream variant as consumed by `select_and_validate_stream`
(`helpers/downloader/crawler_utils.py`): the catalog entries carry a `height`
label (a string such as `"720"`), a guest-accessibility flag and a URL. -/
structure Stream where
  height : String
  is_guest_allowed : Bool
  url : String
  deriving DecidableEq, Repr

/-- The fixed resolution lookup table `RESOLUTION_MAP` from `config.py`. -/
def RESOLUTION_MAP : List (String × Nat) :=
  [("1080p", 0), ("720p", 1), ("480p", 2), ("360p", 3)]

/-- `RESOLUTION_MAP.get(resolution_choice, 0)`: the catalog index for the
preference, falling back to index `0` when the preference is not a key of the
table. -/
def resolution_index (choice : String) : Nat :=
  (RESOLUTION_MAP.lookup choice).getD 0

/-- `resolution_choice.lower().replace("p", "")`: the numeric part of the
preference, e.g. `"720"` for `"720p"`. -/
def target_height (choice : String) : String :=
  ((choice.toList.map Char.toLower).filter (fun c => c != 'p')).asString

/-- `is_valid_stream`: the stream is guest-accessible. -/
def is_valid_stream (s : Stream) : Bool :=
  s.is_guest_allowed

/-- `match_target_height`: the stream's height label equals the preference's
numeric part. -/
def match_target_height (choice : String) (s : Stream) : Bool :=
  s.height == target_height choice

/-- The two fallback scans of `select_and_validate_stream`: first guest
-accessible stream with matching height, else first guest-accessible stream,
else the `"No guest-accessible stream available."` error. -/
def select_fallback (choice : String) (streams : List Stream) : Except String Stream :=
  match streams.find? (fun s => is_valid_stream s && match_target_height choice s) with
  | some s => .ok s
  | none =>
    match streams.find? (fun s => is_valid_stream s) with
    | some s => .ok s
    | none => .error "No guest-accessible stream available."

/-- `select_and_validate_stream`: probe the catalog index from
`RESOLUTION_MAP` first (the index is in bounds, the variant is
guest-accessible and its height matches), then fall back to the two scans. -/
def select_and_validate_stream (choice : String) (streams : List Stream) :
    Except String Stream :=
  match streams[resolution_index choice]? with
  | some s =>
    if is_valid_stream s && match_target_height choice s then .ok s
    else select_fallback choice streams
  | none => select_fallback choice streams

/-- The tier-1 probe succeeds: the indexed variant exists, is guest-accessible
and its height matches the preference. -/
def tier1_hit (choice : String) (streams : List Stream) : Prop :=
  ∃ s, streams[resolution_index choice]? = some s
    ∧ is_valid_stream s = true ∧ match_target_height choice s = true

theorem find?_eq_of_first {α : Type} (p : α → Bool) :
    ∀ (l : List α) (k : Nat) (s : α), l[k]? = some s → p s = true →
      (∀ m, m < k → ∀ t, l[m]? = some t → p t = false) →
      l.find? p = some s := by
  intro l
  induction l with
  | nil =>
    intro k s hk
    simp at hk
  | cons a tl ih =>
    intro k s hk hp hfirst
    cases k with
    | zero =>
      simp at hk
      subst hk
      simp [List.find?, hp]
    | succ k =>
      have ha : p a = false := hfirst 0 (Nat.succ_pos k) a (by simp)
      have htl := ih k s (by simpa using hk) hp
        (fun m hm t ht => hfirst (m + 1) (by omega) t (by simpa using ht))
      simp [List.find?, ha, htl]

theorem select_ok_of_exists_valid (choice : String) (streams : List Stream)
    (h : ∃ s ∈ streams, is_valid_stream s = true) :
    ∃ s, select_and_validate_stream choice streams = .ok s := by
  have hfind : streams.find? (fun s => is_valid_stream s) ≠ none := by
    intro hnone
    obtain ⟨s, hs, hv⟩ := h
    have := List.find?_eq_none.mp hnone s hs
    simp [hv] at this
  unfold select_and_validate_stream select_fallback
  cases hidx : streams[resolution_index choice]? with
  | none =>
    cases h2 : streams.find? (fun s => is_valid_stream s && match_target_height choice s) with
    | some s => exact ⟨s, rfl⟩
    | none =>
      cases h3 : streams.find? (fun s => is_valid_stream s) with
      | some s => exact ⟨s, rfl⟩
      | none => exact absurd h3 hfind
  | some s =>
    by_cases hcond : (is_valid_stream s && match_target_height choice s) = true
    · exact ⟨s, by simp [hcond]⟩
    · cases h2 : streams.find? (fun t => is_valid_stream t && match_target_height choice t) with
      | some t => exact ⟨t, by simp [hcond, h2]⟩
      | none =>
        cases h3 : streams.find? (fun t => is_valid_stream t) with
        | some t => exact ⟨t, by simp [hcond, h2, h3]⟩
        | none => exact absurd h3 hfind

theorem select_eq_fallback_of_not_tier1 (choice : String) (streams : List Stream)
    (h : ¬ tier1_hit choice streams) :
    select_and_validate_stream choice streams = select_fallback choice streams := by
  unfold select_and_validate_stream
  cases hidx : streams[resolution_index choice]? with
  | none => rfl
  | some s =>
    have hc : ¬ (is_valid_stream s && match_target_height choice s) = true := by
      intro hc
      obtain ⟨hv, hm⟩ := Bool.and_eq_true_iff.mp hc
      exact h ⟨s, hidx, hv, hm⟩
    simp [hc]

/-- C3: `select_and_validate_stream` implements the three-tier fallback.
Tier 1: if the catalog index given by `RESOLUTION_MAP` points at a variant
that is guest-accessible and whose height label equals the preference's
numeric part, return it. Tier 2: otherwise return the first variant in
catalog order that is guest-accessible with matching height. Tier 3:
otherwise return the first guest-accessible variant regardless of height.
Selection fails (with the no-accessible-stream error) exactly when no variant
is guest-accessible. In particular, for the catalog
`[{1080, no-guest}, {720, guest}, {480, guest}]` and preference `"720p"` it
returns the 720p variant via tier 1. -/
theorem stream_selector_three_tier_fallback :
    (∀ choice streams s, streams[resolution_index choice]? = some s →
        is_valid_stream s = true → match_target_height choice s = true →
        select_and_validate_stream choice streams = .ok s)
    ∧ (∀ (choice : String) (streams : List Stream) (s : Stream) (k : Nat),
        ¬ tier1_hit choice streams →
        streams[k]? = some s →
        (is_valid_stream s && match_target_height choice s) = true →
        (∀ m, m < k → ∀ t, streams[m]? = some t →
            (is_valid_stream t && match_target_height choice t) = false) →
        select_and_validate_stream choice streams = .ok s)
    ∧ (∀ (choice : String) (streams : List Stream) (s : Stream) (k : Nat),
        ¬ tier1_hit choice streams →
        (∀ t ∈ streams, (is_valid_stream t && match_target_height choice t) = false) →
        streams[k]? = some s → is_valid_stream s = true →
        (∀ m, m < k → ∀ t, streams[m]? = some t → is_valid_stream t = false) →
        select_and_validate_stream choice streams = .ok s)
    ∧ (∀ choice streams, (∃ e, select_and_validate_stream choice streams = .error e)
        ↔ ∀ s ∈ streams, is_valid_stream s = false)
    ∧ select_and_validate_stream "720p"
        [⟨"1080", false, ""⟩, ⟨"720", true, ""⟩, ⟨"480", true, ""⟩]
        = .ok ⟨"720", true, ""⟩ := by
  refine ⟨?_, ?_, ?_, ?_, ?_⟩
  · intro choice streams s hidx hv hm
    unfold select_and_validate_stream
    rw [hidx]
    simp [hv, hm]
  · intro choice streams s k hno hk hp hfirst
    rw [select_eq_fallback_of_not_tier1 choice streams hno]
    unfold select_fallback
    rw [find?_eq_of_first _ streams k s hk hp hfirst]
  · intro choice streams s k hno hall hk hv hfirst
    rw [select_eq_fallback_of_not_tier1 choice streams hno]
    unfold select_fallback
    have h2 : streams.find?
        (fun t => is_valid_stream t && match_target_height choice t) = none := by
      refine List.find?_eq_none.mpr ?_
      intro t ht
      simp [hall t ht]
    rw [h2, find?_eq_of_first _ streams k s hk hv hfirst]
  · intro choice streams
    constructor
    · rintro ⟨e, he⟩
      by_contra hall
      push_neg at hall
      obtain ⟨s, hs, hv⟩ := hall
      obtain ⟨t, ht⟩ := select_ok_of_exists_valid choice streams
        ⟨s, hs, by simpa using hv⟩
      rw [he] at ht
      exact Except.noConfusion ht
    · intro hall
      have hfall : select_and_validate_stream choice streams
          = select_fallback choice streams := by
        refine select_eq_fallback_of_not_tier1 choice streams ?_
        rintro ⟨s, hidx, hv, _⟩
        have hs : s ∈ streams := by
          have := List.getElem?_eq_some.mp hidx
          obtain ⟨hlt, hget⟩ := this
          exact hget ▸ List.getElem_mem hlt
        rw [hall s hs] at hv
        exact Bool.noConfusion hv
      have h2 : streams.find?
          (fun t => is_valid_stream t && match_target_height choice t) = none := by
        refine List.find?_eq_none.mpr ?_
        intro t ht
        simp [hall t ht]
      have h3 : streams.find? (fun t => is_valid_stream t) = none := by
        refine List.find?_eq_none.mpr ?_
        intro t ht
        simp [hall t ht]
      rw [hfall]
      unfold select_fallback
      rw [h2, h3]
      exact ⟨_, rfl⟩
  · rfl

theorem stream_selector_three_tier_fallback_witness :
    select_and_validate_stream "480p"
      [⟨"1080", false, ""⟩, ⟨"720", true, ""⟩, ⟨"480", true, ""⟩]
      = .ok ⟨"480", true, ""⟩ :=
  stream_selector_three_tier_fallback.1 "480p"
    [⟨"1080", false, ""⟩, ⟨"720", true, ""⟩, ⟨"480", true, ""⟩]
    ⟨"480", true, ""⟩ (by decide) (by decide) (by decide)

/-- C10: for every resolution preference string that is not one of the four
keys of `RESOLUTION_MAP` (e.g. `"900p"`), the tier-1 probe silently falls back
to catalog index 0 rather than failing on the lookup, and selection proceeds
through the fallback tiers, so any catalog containing at least one
guest-accessible variant still yields a variant (never an error), regardless
of the preference string. -/
theorem unknown_resolution_falls_back_to_index_zero :
    (∀ choice : String, choice ≠ "1080p" → choice ≠ "720p" → choice ≠ "480p" →
        choice ≠ "360p" → resolution_index choice = 0)
    ∧ (∀ (choice : String) (streams : List Stream),
        (∃ s ∈ streams, is_valid_stream s = true) →
        ∃ s, select_and_validate_stream choice streams = .ok s)
    ∧ resolution_index "900p" = 0 := by
  refine ⟨?_, ?_, ?_⟩
  · intro choice h1 h2 h3 h4
    have e1 : (choice == "1080p") = false := beq_eq_false_iff_ne.mpr h1
    have e2 : (choice == "720p") = false := beq_eq_false_iff_ne.mpr h2
    have e3 : (choice == "480p") = false := beq_eq_false_iff_ne.mpr h3
    have e4 : (choice == "360p") = false := beq_eq_false_iff_ne.mpr h4
    simp [resolution_index, RESOLUTION_MAP, List.lookup, e1, e2, e3, e4]
  · intro choice streams h
    exact select_ok_of_exists_valid choice streams h
  · rfl

theorem unknown_resolution_falls_back_to_index_zero_witness :
    resolution_index "900p" = 0
      ∧ ∃ s, select_and_validate_stream "900p" [⟨"1080", true, ""⟩] = .ok s :=
  ⟨unknown_resolution_falls_back_to_index_zero.1 "900p"
      (by decide) (by decide) (by decide) (by decide),
   unknown_resolution_falls_back_to_index_zero.2.1 "900p" [⟨"1080", true, ""⟩]
      ⟨⟨"1080", true, ""⟩, by decide, rfl⟩⟩

/-- `[A-Za-z0-9]` character class of `HANIME_NAME_PATTERN`. -/
def is_alnum_char (c : Char) : Bool :=
  c.isAlpha || c.isDigit

/-- The slug part `([A-Za-z0-9]+(-[A-Za-z0-9]+)+)` of `HANIME_NAME_PATTERN`,
matched at the start of `rest` (anything may follow, as `re.match` only
anchors at the start): a nonempty alphanumeric run, a hyphen, and at least one
more alphanumeric character. -/
def slug_ok (rest : List Char) : Bool :=
  let run := rest.takeWhile is_alnum_char
  match rest.drop run.length with
  | '-' :: c :: _ => !run.isEmpty && is_alnum_char c
  | _ => false

/-- `re.compile(HANIME_NAME_PATTERN, re.IGNORECASE).match(url)`: the URL
starts (case-insensitively) with the literal hanime video-page base followed
by a hyphenated alphanumeric slug. -/
def hanime_url_ok (url : String) : Bool :=
  let l := url.toList.map Char.toLower
  let base := "https://hanime.tv/videos/hentai/".toList
  (l.take base.length == base) && slug_ok (l.drop base.length)

/-- `url.rstrip("/")`. -/
def rstrip_slashes (url : String) : String :=
  ((url.toList.reverse.dropWhile (fun c => c == '/')).reverse).asString

/-- `url.split("/")[-1]`: the substring after the last `/` (the whole string
when there is none). -/
def last_path_component (s : String) : String :=
  ((s.toList.reverse.takeWhile (fun c => c != '/')).reverse).asString

/-- `get_episode_id` (`helpers/downloader/crawler_utils.py`): validate the
page URL against `HANIME_NAME_PATTERN`; on a match return the episode slug
(`url.rstrip("/").split("/")[-1]`), otherwise log a warning and terminate the
process via `sys.exit(0)`. The `error` branch carries the process exit code
passed to `sys.exit`. -/
def get_episode_id (url : String) : Except Nat String :=
  if hanime_url_ok url then .ok (last_path_component (rstrip_slashes url))
  else .error 0

/-- C9 counterexample: for a URL that does not match the hanime page-URL
pattern, `get_episode_id` terminates the process with exit code 0, not exit
code 1 as the claim states. -/
theorem invalid_url_exit_code_counterexample :
    get_episode_id "https://example.com/watch" = .error 0 ∧ (0 : Nat) ≠ 1 :=
  ⟨rfl, by decide⟩

/-- C9 (amended): a page URL that does not match the expected hanime page-URL
pattern is treated as fatal — the process logs a warning and exits — but the
exit code is 0 (`sys.exit(0)`), not 1. -/
theorem invalid_url_exits_with_code_zero :
    ∀ url : String, hanime_url_ok url = false → get_episode_id url = .error 0 := by
  intro url h
  simp [get_episode_id, h]

theorem invalid_url_exits_with_code_zero_witness :
    get_episode_id "https://example.com/watch" = .error 0 :=
  invalid_url_exits_with_code_zero "https://example.com/watch" rfl

/-- Terminal behaviour of one episode job as observed by the URL loop in
`main.process_urls`: either the job returns normally, or a fatal error inside
`EpisodeDownloader.download` (or `get_episode_id`) calls `sys.exit(code)`,
raising `SystemExit` with that code. -/
inductive JobOutcome where
  | success : JobOutcome
  | fatalExit (code : Nat) : JobOutcome
  deriving DecidableEq, Repr

/-- `main.process_urls`: iterate the URLs in order, running one download job
per URL. The surrounding `try` catches only `KeyboardInterrupt`, so a
`SystemExit` raised by a job propagates and terminates the process. Returns
the list of URLs whose jobs were started, and `some code` when a job's
`sys.exit(code)` terminated the process early (`none` when every job ran). -/
def process_urls (outcome : String → JobOutcome) : List String → List String × Option Nat
  | [] => ([], none)
  | url :: rest =>
    match outcome url with
    | .success =>
      let result := process_urls outcome rest
      (url :: result.1, result.2)
    | .fatalExit code => ([url], some code)

/-- A batch of two URLs where the first job hits a fatal error
(`sys.exit(1)` from `log_and_exit`). -/
def first_job_fatal (url : String) : JobOutcome :=
  if url == "url-a" then .fatalExit 1 else .success

/-- C8 counterexample: with two URLs queued and a fatal error on the first
job, the process exits with code 1 and the second URL is never processed —
batch mode does not continue to the next URL as the claim states. -/
theorem fatal_error_stops_batch_counterexample :
    process_urls first_job_fatal ["url-a", "url-b"] = (["url-a"], some 1)
      ∧ "url-b" ∉ (process_urls first_job_fatal ["url-a", "url-b"]).1 := by
  decide

/-- C8 (amended): a fatal error while downloading one episode calls
`sys.exit`, which is not caught by `process_urls` (it catches only
`KeyboardInterrupt`), so the whole process terminates with that job's exit
code: in batch mode the remaining URLs in the queue are not processed, and
the failing URL is the last one attempted. -/
theorem fatal_error_exits_process :
    ∀ (outcome : String → JobOutcome) (url : String) (rest : List String) (code : Nat),
      outcome url = .fatalExit code →
      process_urls outcome (url :: rest) = ([url], some code) := by
  intro outcome url rest code h
  simp [process_urls, h]

theorem fatal_error_exits_process_witness :
    process_urls first_job_fatal ["url-a", "url-b"] = (["url-a"], some 1) :=
  fatal_error_exits_process first_job_fatal "url-a" ["url-b"] 1 rfl

/-- `backoff_delay = 2 ** (attempt + 1) + random.uniform(1, 3)` in
`_download_segment`: the pre-cap delay after the failure at zero-based
`attempt`, with `jitter` the drawn random value (modelled as a rational). -/
def backoff_delay (attempt : Nat) (jitter : ℚ) : ℚ :=
  2 ^ (attempt + 1) + jitter

/-- `delay = min(backoff_delay, max_delay)`: the delay actually slept. The
defaults in `_download_segment` are `retries = 10` and `max_delay = 30`. -/
def retry_delay (attempt : Nat) (jitter : ℚ) (max_delay : ℚ) : ℚ :=
  min (backoff_delay attempt jitter) max_delay

/-- C6: after the k-th consecutive failure (k ≥ 1, i.e. zero-based attempt
k - 1, below the retry budget) the slept delay equals
`min(max_delay, 2 ^ k + jitter)` with the jitter drawn from [1, 3]; for every
pair of jitter draws the delay is non-decreasing from one attempt to the
next, and it never exceeds the configured cap. -/
theorem retry_backoff_monotone_capped :
    ∀ (k : Nat) (j j' max_delay : ℚ), 1 ≤ k → 1 ≤ j → j ≤ 3 → 1 ≤ j' → j' ≤ 3 →
      retry_delay (k - 1) j max_delay = min (2 ^ k + j) max_delay
      ∧ retry_delay (k - 1) j max_delay ≤ retry_delay k j' max_delay
      ∧ retry_delay (k - 1) j max_delay ≤ max_delay := by
  intro k j j' maxd hk hj1 hj3 hj'1 hj'3
  have hk1 : k - 1 + 1 = k := by omega
  refine ⟨?_, ?_, ?_⟩
  · simp [retry_delay, backoff_delay, hk1]
  · have h2 : (2 : ℚ) ≤ 2 ^ k := by
      calc (2 : ℚ) = 2 ^ 1 := (pow_one 2).symm
      _ ≤ 2 ^ k := pow_le_pow_right₀ one_le_two hk
    have hle : (2 : ℚ) ^ k + j ≤ 2 ^ (k + 1) + j' := by
      rw [pow_succ]
      linarith
    simp only [retry_delay, backoff_delay, hk1]
    exact min_le_min hle le_rfl
  · simp [retry_delay]

theorem retry_backoff_monotone_capped_witness :
    retry_delay (1 - 1) 2 30 = min (2 ^ 1 + 2) 30
      ∧ retry_delay (1 - 1) 2 30 ≤ retry_delay 1 2 30
      ∧ retry_delay (1 - 1) 2 30 ≤ 30 :=
  retry_backoff_monotone_capped 1 2 2 30 le_rfl (by norm_num) (by norm_num)
    (by norm_num) (by norm_num)

/-- `Crypto.Util.Padding.pad` (PKCS#7 style): append `p` copies of the byte
`p`, where `p = block_size - len(data) % block_size`. -/
def pkcs7_pad (block_size : Nat) (data : List Nat) : List Nat :=
  let p := block_size - data.length % block_size
  data ++ List.replicate p p

/-- `Crypto.Util.Padding.unpad` (PKCS#7 style): strip the trailing padding;
`none` models the `ValueError` raised on zero-length input, a length that is
not a block multiple, or incorrect padding bytes. -/
def pkcs7_unpad (block_size : Nat) (data : List Nat) : Option (List Nat) :=
  if data.length = 0 then none
  else if data.length % block_size ≠ 0 then none
  else
    match data.getLast? with
    | none => none
    | some p =>
      if p < 1 ∨ p > min block_size data.length then none
      else if (data.drop (data.length - p)).all (fun b => b == p) then
        some (data.take (data.length - p))
      else none

/-- The `"Decryption error"` event logged by `_decrypt_with_padding` when
unpadding fails. -/
def padding_error_event (segment_uri : String) : LogEvent :=
  ⟨"Decryption error",
   s!"Padding error for segment {segment_uri}. Proceeding with partial data."⟩

/-- `_decrypt_with_padding`: pad the fetched bytes to a block multiple,
decrypt, then try to unpad; on unpad failure (`ValueError`) log a diagnostic
event and return the raw decrypted bytes anyway. `decrypt` abstracts the
`decryptor.decrypt` call. -/
def decrypt_with_padding (decrypt : List Nat → List Nat) (block_size : Nat)
    (data : List Nat) (segment_uri : String) : List Nat × List LogEvent :=
  let padded := pkcs7_pad block_size data
  let decrypted := decrypt padded
  match pkcs7_unpad block_size decrypted with
  | some unpadded => (unpadded, [])
  | none => (decrypted, [padding_error_event segment_uri])

/-- The `"Failed segment download"` event logged by `_download_segment` when
the retry budget is exhausted. -/
def failed_download_event (segment_uri : String) : LogEvent :=
  ⟨"Failed segment download", s!"Failed to download {segment_uri}"⟩

/-- The terminal step of `_download_segment`: `fetched` is the outcome of the
retry loop (`some data` when a request succeeded, `none` when the budget was
exhausted). On success the response bytes are decrypted, taking the padding
recovery path when the length is not a multiple of the cipher block size.
Returns the segment result and the emitted log events. -/
def handle_fetched_segment (decrypt : List Nat → List Nat) (block_size : Nat)
    (segment_uri : String) (fetched : Option (List Nat)) :
    Option (List Nat) × List LogEvent :=
  match fetched with
  | none => (none, [failed_download_event segment_uri])
  | some data =>
    if data.length % block_size ≠ 0 then
      let r := decrypt_with_padding decrypt block_size data segment_uri
      (some r.1, r.2)
    else (some (decrypt data), [])

/-- C7: for every successfully fetched segment whose length is not an exact
multiple of the cipher block size, the pipeline pads the ciphertext to a
block multiple, decrypts it, and attempts to unpad: when unpadding succeeds
the unpadded plaintext is returned with no diagnostic, and when unpadding
fails the raw decrypted bytes are returned after a diagnostic event — a
successful fetch on this path never yields an absent result. -/
theorem padding_recovery_never_discards_segment :
    ∀ (decrypt : List Nat → List Nat) (block_size : Nat) (data : List Nat)
      (segment_uri : String),
      0 < block_size → data.length % block_size ≠ 0 →
      (pkcs7_pad block_size data).length % block_size = 0
      ∧ (∀ u, pkcs7_unpad block_size (decrypt (pkcs7_pad block_size data)) = some u →
          handle_fetched_segment decrypt block_size segment_uri (some data)
            = (some u, []))
      ∧ (pkcs7_unpad block_size (decrypt (pkcs7_pad block_size data)) = none →
          handle_fetched_segment decrypt block_size segment_uri (some data)
            = (some (decrypt (pkcs7_pad block_size data)),
               [padding_error_event segment_uri]))
      ∧ (handle_fetched_segment decrypt block_size segment_uri (some data)).1.isSome
          = true := by
  intro decrypt bs data uri hbs hlen
  have hmod : data.length % bs < bs := Nat.mod_lt _ hbs
  have hpad : (pkcs7_pad bs data).length % bs = 0 := by
    have h1 : data.length % bs + (bs - data.length % bs) = bs :=
      Nat.add_sub_cancel' (Nat.le_of_lt hmod)
    calc (pkcs7_pad bs data).length % bs
        = (data.length + (bs - data.length % bs)) % bs := by simp [pkcs7_pad]
      _ = (data.length % bs + (bs - data.length % bs) % bs) % bs := by
            rw [Nat.add_mod]
      _ = (data.length % bs + (bs - data.length % bs)) % bs := by
            rw [Nat.mod_eq_of_lt (Nat.sub_lt hbs (Nat.pos_of_ne_zero hlen))]
      _ = bs % bs := by rw [h1]
      _ = 0 := Nat.mod_self bs
  refine ⟨hpad, ?_, ?_, ?_⟩
  · intro u hu
    simp [handle_fetched_segment, hlen, decrypt_with_padding, hu]
  · intro hu
    simp [handle_fetched_segment, hlen, decrypt_with_padding, hu]
  · cases hu : pkcs7_unpad bs (decrypt (pkcs7_pad bs data)) with
    | none => simp [handle_fetched_segment, hlen, decrypt_with_padding, hu]
    | some u => simp [handle_fetched_segment, hlen, decrypt_with_padding, hu]

theorem padding_recovery_never_discards_segment_witness :
    handle_fetched_segment id 2 "seg-0" (some [5]) = (some [5], []) :=
  (padding_recovery_never_discards_segment id 2 [5] "seg-0"
    (by decide) (by decide)).2.1 [5] (by decide)

/-- Block-level model of PyCryptodome's `CbcMode.decrypt` on the single
`decryptor = AES.new(key_data, AES.MODE_CBC)` object shared by all segment
tasks: blocks are abstracted as naturals, `D` is raw AES block decryption
under the job key, and XOR is the CBC whitening step. The cipher object is
stateful: a call starts from the current chaining value `st` (initially the
IV) and leaves the last ciphertext block behind as the chaining value for the
next call. Returns the plaintext blocks and the new chaining value. -/
def cbc_decrypt_blocks (D : Nat → Nat) : Nat → List Nat → List Nat × Nat
  | st, [] => ([], st)
  | st, c :: rest =>
    let r := cbc_decrypt_blocks D c rest
    ((D c ^^^ st) :: r.1, r.2)

/-- C5 counterexample: on the shared cipher object, decrypting the one-block
segment `[2]` right after initialisation (chaining value 0) yields a
different plaintext than decrypting the same segment after segment `[1]` was
decrypted first — the decrypt calls are not per-call independent and the
cipher does not reset to the implicit IV between calls. -/
theorem shared_cbc_state_counterexample :
    (cbc_decrypt_blocks id 0 [2]).1
      ≠ (cbc_decrypt_blocks id (cbc_decrypt_blocks id 0 [1]).2 [2]).1 := by
  decide

/-- C5 (amended): segment decryption on the shared CBC cipher object is not
per-call independent: a decrypt call leaves the segment's last ciphertext
block as the chaining value for the next call (it does not reset to the
implicit IV), and the plaintext of a segment depends on the chaining value at
call time — two different chaining values yield two different plaintexts for
the same ciphertext, so decrypting the same segment after different sets or
orders of other segment decryptions can yield different plaintext. -/
theorem cbc_decrypt_depends_on_chaining_state :
    (∀ (D : Nat → Nat) (st : Nat) (ct : List Nat),
        (cbc_decrypt_blocks D st ct).2 = ct.getLastD st)
    ∧ (∀ (D : Nat → Nat) (st st' c : Nat) (rest : List Nat), st ≠ st' →
        (cbc_decrypt_blocks D st (c :: rest)).1
          ≠ (cbc_decrypt_blocks D st' (c :: rest)).1) := by
  constructor
  · intro D st ct
    induction ct generalizing st with
    | nil => rfl
    | cons c rest ih =>
      cases rest with
      | nil => rfl
      | cons b tl =>
        simp only [cbc_decrypt_blocks]
        rw [show (cbc_decrypt_blocks D b tl).2 = (cbc_decrypt_blocks D c (b :: tl)).2
              from rfl,
          ih c, List.getLastD_cons, List.getLastD_cons, List.getLastD_cons]
  · intro D st st' c rest hne heq
    have h1 : D c ^^^ st = D c ^^^ st' := by
      have h := congrArg List.head? heq
      simpa [cbc_decrypt_blocks] using h
    have h2 : st = st' := by
      have h := congrArg (fun x => D c ^^^ x) h1
      simpa [← Nat.xor_assoc, Nat.xor_self, Nat.zero_xor] using h
    exact hne h2

theorem cbc_decrypt_depends_on_chaining_state_witness :
    (cbc_decrypt_blocks id 0 [2]).2 = List.getLastD [2] 0
      ∧ (cbc_decrypt_blocks id 0 [2, 7]).1 ≠ (cbc_decrypt_blocks id 1 [2, 7]).1 :=
  ⟨cbc_decrypt_depends_on_chaining_state.1 id 0 [2],
   cbc_decrypt_depends_on_chaining_state.2 id 0 1 2 [7] (by decide)⟩

/-- C4 counterexample: the destination file is opened in append mode and
never truncated, so running the pipeline plus writer a second time over the
same completed result set appends a second copy: with a single present
segment `[1]`, the file after two runs differs from the file after one run. -/
theorem rerun_not_idempotent_counterexample :
    (write_segments (write_segments [] [some [1]]).1 [some [1]]).1
      ≠ (write_segments [] [some [1]]).1 := by
  decide

/-- C4 (amended): re-running the pipeline plus Sequencer/Writer against the
same already-complete manifest, with every segment fetchable and the same
destination path, appends a second copy of every present payload (append
mode, no truncation): after two runs the file holds the single-run content
twice, so the operation is not idempotent on the output file — though within
a single run no segment's bytes are duplicated. -/
theorem rerun_appends_second_copy :
    ∀ (initial : List Nat) (results : List (Option (List Nat))),
      (write_segments (write_segments initial results).1 results).1
        = initial ++ (results.filterMap id).flatten
            ++ (results.filterMap id).flatten := by
  intro initial results
  simp [write_segments, write_segments_from_spec]

end Hanime
